import Mathlib

/-
  A verification development of the configuration-resolution engine of the
  `@rushstack/heft-config-file` `ConfigurationFile` loader: extends-chain
  traversal with cycle detection, schema validation of the merged result,
  pattern-addressed path resolution, per-field inheritance merge semantics,
  and per-value provenance tracking.

  The engine itself ships outside the checked-in sources (only its test
  suite is present), so every definition below is modelled from the
  specification of the engine, faithful to the specification's words.
-/

set_option maxHeartbeats 1000000

/-- Absolute (or repository-relative) file paths are modelled as plain
slash-separated strings. -/
abbrev FilePath := String

/-- Modelled from the spec: a parsed JSON tree of exactly one file on disk
("RawDocument"), before merge or path resolution. -/
inductive JVal where
  | str (s : String)
  | bool (b : Bool)
  | num (n : Int)
  | null
  | arr (elems : List JVal)
  | obj (fields : List (String × JVal))
deriving Repr

/-- Modelled from the spec: a value of the merged document together with its
provenance record. Objects and arrays carry the absolute path of the file
that literally declared them; string scalars carry their pre-resolution
original value and the path of the file that introduced them (the
"Provenance Store", represented positionally instead of by machine object
identity). -/
inductive PVal where
  | pstr (current : String) (original : String) (src : FilePath)
  | pbool (b : Bool)
  | pnum (n : Int)
  | pnull
  | parr (src : FilePath) (elems : List PVal)
  | pobj (src : FilePath) (fields : List (String × PVal))
deriving Repr

/-- Modelled from the spec: the three path-resolution modes
(`relative-to-declaring-file`, `relative-to-project-root`, `module-resolve`),
named as in the source's `PathResolutionMethod`. -/
inductive PathResolutionMethod where
  | resolvePathRelativeToConfigurationFile
  | resolvePathRelativeToProjectRoot
  | nodeResolve
deriving Repr, DecidableEq

/-- Modelled from the spec: the per-field inheritance policy (`append`,
`replace`, or a caller-supplied `custom` function receiving the descendant's
current value and the merged-ancestor value). -/
inductive InheritanceType where
  | append
  | replace
  | custom (f : JVal → JVal → JVal)

/-- Modelled from the spec: one segment of a compiled field-address pattern:
a literal field name or an "any-index"/"any-key" wildcard. -/
inductive PatSeg where
  | field (name : String)
  | wild
deriving Repr, DecidableEq

/-- A field-address pattern is a list of segments (e.g. `$.things.*` is
`[.field "things", .wild]`). -/
abbrev Pattern := List PatSeg

/-- Modelled from the spec: the state of one path in the external file
system: present and parseable, or present but not valid JSON. A path absent
from the file-system table is a missing file. -/
inductive RawFile where
  | malformed
  | doc (j : JVal)
deriving Repr

/-- Modelled from the spec: the structured failure conditions of the loader.
`schemaViolation` carries the merged document it is attributed to;
`circularExtends` carries the acyclic path taken through the cycle. -/
inductive LoadError where
  | notFound (path : FilePath)
  | malformedDocument (path : FilePath)
  | schemaViolation (mergedDocument : JVal)
  | circularExtends (cycle : List FilePath)
  | unresolvedExtends (target : FilePath)
  | moduleNotFound (specifier : String) (searchRoot : FilePath)
deriving Repr

/-- Joins a folder and a relative path with a slash. -/
def joinPath (dir : String) (rest : String) : String := dir ++ "/" ++ rest

/-- Splits a character list at slashes, accumulating the current segment. -/
def splitSlashAux : List Char → List Char → List String
  | [], acc => [String.mk acc.reverse]
  | c :: cs, acc =>
    if c = '/' then String.mk acc.reverse :: splitSlashAux cs []
    else splitSlashAux cs (c :: acc)

/-- The slash-separated segments of a path. -/
def splitSlash (s : String) : List String := splitSlashAux s.data []

/-- Rejoins path segments with slashes. -/
def joinSegs : List String → String
  | [] => ""
  | [s] => s
  | s :: rest => s ++ "/" ++ joinSegs rest

/-- The folder containing a slash-separated path (all but the last segment). -/
def dirname (p : String) : String :=
  joinSegs (splitSlash p).dropLast

/-- Collapses `.` and `..` segments of a slash-separated path. -/
def collapseDots (segs : List String) : List String :=
  segs.foldl
    (fun acc s => if s = "." then acc else if s = ".." then acc.dropLast else acc ++ [s]) []

/-- Normalizes a slash-separated path by collapsing `.` and `..` segments. -/
def normalizePath (p : String) : String :=
  joinSegs (collapseDots (splitSlash p))

/-- Modelled from the spec: an `extends` reference is resolved relative to
the referencing file's folder. -/
def resolveRef (referencing : FilePath) (ref : String) : FilePath :=
  normalizePath (joinPath (dirname referencing) ref)

/-- First-match association-list lookup by key (JSON object field lookup). -/
def lookupKey {α : Type} (name : String) : List (String × α) → Option α
  | [] => none
  | (k, v) :: rest => if k = name then some v else lookupKey name rest

/-- Looks up a path in the modelled file-system table. -/
def lookupFs (fs : List (FilePath × RawFile)) (p : FilePath) : Option RawFile :=
  lookupKey p fs

/-- The top-level field list of a document (empty for non-objects). -/
def topFields : JVal → List (String × JVal)
  | .obj fields => fields
  | _ => []

/-- Modelled from the spec: the optional top-level string field named
`extends` referencing another file. -/
def getExtendsRef (j : JVal) : Option String :=
  match lookupKey "extends" (topFields j) with
  | some (.str e) => some e
  | _ => none

/-- The top-level fields of a document that take part in the merge: the
`extends` bookkeeping field is dropped. -/
def fieldsOfDoc (j : JVal) : List (String × JVal) :=
  (topFields j).filter (fun kv => kv.1 ≠ "extends")

mutual
/-- Modelled from the spec: tags a freshly parsed raw document with the
absolute path of the file it came from, recording for every string scalar
its pre-resolution original value (provenance population). -/
def annotate (src : FilePath) : JVal → PVal
  | .str s => .pstr s s src
  | .bool b => .pbool b
  | .num n => .pnum n
  | .null => .pnull
  | .arr es => .parr src (annotateList src es)
  | .obj fields => .pobj src (annotateFields src fields)

/-- `annotate` mapped over array elements. -/
def annotateList (src : FilePath) : List JVal → List PVal
  | [] => []
  | e :: es => annotate src e :: annotateList src es

/-- `annotate` mapped over object field values. -/
def annotateFields (src : FilePath) : List (String × JVal) → List (String × PVal)
  | [] => []
  | (k, v) :: kvs => (k, annotate src v) :: annotateFields src kvs
end

mutual
/-- Forgets provenance, recovering the plain document (current values). -/
def stripP : PVal → JVal
  | .pstr c _ _ => .str c
  | .pbool b => .bool b
  | .pnum n => .num n
  | .pnull => .null
  | .parr _ es => .arr (stripList es)
  | .pobj _ fields => .obj (stripFields fields)

/-- `stripP` mapped over array elements. -/
def stripList : List PVal → List JVal
  | [] => []
  | e :: es => stripP e :: stripList es

/-- `stripP` mapped over object field values. -/
def stripFields : List (String × PVal) → List (String × JVal)
  | [] => []
  | (k, v) :: kvs => (k, stripP v) :: stripFields kvs
end

/-- Modelled from the spec: merges one field present in both the
accumulated ancestor document and the more-derived document, under the
field's inheritance policy. `append` concatenates ancestor elements then
descendant elements; `replace` discards the ancestor value; `custom`
invokes the supplied function with (descendant value, ancestor value) and
takes its return value verbatim, annotated as introduced by the descendant
file. When no policy is configured the default is `append` for arrays and
`replace` otherwise. `append` on non-array values is not specified and
degenerates to `replace` here. -/
def mergeField (childSrc : FilePath) (pol : Option InheritanceType)
    (parentV childV : PVal) : PVal :=
  match pol with
  | some .replace => childV
  | some .append =>
    match parentV, childV with
    | .parr _ pes, .parr _ ces => .parr childSrc (pes ++ ces)
    | _, _ => childV
  | some (.custom f) => annotate childSrc (f (stripP childV) (stripP parentV))
  | none =>
    match parentV, childV with
    | .parr _ pes, .parr _ ces => .parr childSrc (pes ++ ces)
    | _, _ => childV

/-- Modelled from the spec: folds one more-derived document's fields into
the accumulated ancestor fields. A field present on only one side is taken
from that side; a field present on both sides is merged under its policy. -/
def mergeFields (pol : String → Option InheritanceType) (childSrc : FilePath)
    (parentF childF : List (String × PVal)) : List (String × PVal) :=
  (parentF.map (fun kv =>
    match lookupKey kv.1 childF with
    | some cv => (kv.1, mergeField childSrc (pol kv.1) kv.2 cv)
    | none => kv))
  ++ childF.filter (fun kv => (lookupKey kv.1 parentF).isNone)

/-- Modelled from the spec: the Document Merger: a left fold of the
ancestor-to-descendant ordered document list, each document annotated with
the path of the file it came from. -/
def mergeChain (pol : String → Option InheritanceType)
    (chain : List (FilePath × JVal)) : List (String × PVal) :=
  chain.foldl
    (fun acc e => mergeFields pol e.1 acc (annotateFields e.1 (fieldsOfDoc e.2))) []

/-- Modelled from the spec: the Extends-Chain Resolver: a visited-set
guarded walk of the `extends` chain. Before parsing a referenced file the
visited set is consulted; a revisit fails with the circular-reference
condition naming the full cycle. A missing referenced file fails with the
unresolved-extends condition, an unparseable one with the
malformed-document condition. The returned list is base-first. `none`
denotes fuel exhaustion (never reached at the fuel the loader supplies). -/
def resolveChainAux (fs : List (FilePath × RawFile)) :
    Nat → List FilePath → FilePath → Option (Except LoadError (List (FilePath × JVal)))
  | 0, _, _ => none
  | fuel + 1, visited, path =>
    if path ∈ visited then
      some (.error (.circularExtends (visited ++ [path])))
    else
      match lookupFs fs path with
      | none => some (.error (.unresolvedExtends path))
      | some .malformed => some (.error (.malformedDocument path))
      | some (.doc j) =>
        match getExtendsRef j with
        | none => some (.ok [(path, j)])
        | some e =>
          match resolveChainAux fs fuel (visited ++ [path]) (resolveRef path e) with
          | none => none
          | some (.error err) => some (.error err)
          | some (.ok chain) => some (.ok (chain ++ [(path, j)]))

/-- The chain resolver run with fuel that always suffices: one more than
the number of file-system entries. -/
def resolveChain (fs : List (FilePath × RawFile)) (root : FilePath) :
    Option (Except LoadError (List (FilePath × JVal))) :=
  resolveChainAux fs (fs.length + 1) [] root

/-- The file referenced by the `extends` field of the file at `path`, if
`path` holds a parseable document with an `extends` reference. -/
def extendsTarget (fs : List (FilePath × RawFile)) (path : FilePath) : Option FilePath :=
  match lookupFs fs path with
  | some (.doc j) => (getExtendsRef j).map (resolveRef path)
  | _ => none

/-- The `n`-th file of the extends chain starting at `path` (0th = `path`
itself), when the chain reaches that far. -/
def chainNth (fs : List (FilePath × RawFile)) : FilePath → Nat → Option FilePath
  | path, 0 => some path
  | path, n + 1 => (extendsTarget fs path).bind (fun q => chainNth fs q n)

/-- Modelled from the spec: the external collaborators of one load call:
the project root folder, the file-system table, the optional rig profile
folder (result of the rig descriptor's probe), the directory-ascending
module lookup rooted at a folder, and symlink canonicalization to a real
path. -/
structure LoadContext where
  projectRoot : FilePath
  fs : List (FilePath × RawFile)
  rigProfileFolder : Option FilePath
  moduleResolve : FilePath → String → Option FilePath
  realPath : FilePath → FilePath

/-- Modelled from the spec: the immutable per-config-kind description
("ConfigSpec"): project-relative file path, schema (consumed as a black
box: document to pass/fail), field-address-pattern to resolution-mode
mapping, and field-name to inheritance-policy mapping. -/
structure ConfigurationFileOptions where
  projectRelativeFilePath : String
  schema : JVal → Bool
  jsonPathMetadata : List (Pattern × PathResolutionMethod)
  propertyInheritance : String → Option InheritanceType

/-- Modelled from the spec: root-file location: prefer
`<project>/<projectRelativeFilePath>`; if absent and a rig profile folder
is supplied, probe `<rig-profile-folder>/<projectRelativeFilePath>`. -/
def locateRootFile (ctx : LoadContext) (rel : String) : Option FilePath :=
  let projPath := joinPath ctx.projectRoot rel
  if (lookupFs ctx.fs projPath).isSome then some projPath
  else
    match ctx.rigProfileFolder with
    | some rig =>
      let rigPath := joinPath rig rel
      if (lookupFs ctx.fs rigPath).isSome then some rigPath else none
    | none => none

/-- Modelled from the spec: resolution of one raw string under a
resolution mode, given the folder context: `relative-to-declaring-file`
resolves against the folder of the file recorded in the value's
provenance; `relative-to-project-root` against the caller-supplied project
root; `module-resolve` performs the module lookup rooted at the project
root and canonicalizes symlinks on success, failing with the
module-not-found condition naming the specifier and the search root. -/
def resolveString (ctx : LoadContext) (m : PathResolutionMethod)
    (src : FilePath) (s : String) : Except LoadError String :=
  match m with
  | .resolvePathRelativeToConfigurationFile => .ok (joinPath (dirname src) s)
  | .resolvePathRelativeToProjectRoot => .ok (joinPath ctx.projectRoot s)
  | .nodeResolve =>
    match ctx.moduleResolve ctx.projectRoot s with
    | some p => .ok (ctx.realPath p)
    | none => .error (.moduleNotFound s ctx.projectRoot)

/-- Fallible map over a list, stopping at the first error. -/
def mapME {α β : Type} (g : α → Except LoadError β) : List α → Except LoadError (List β)
  | [] => .ok []
  | a :: l =>
    match g a, mapME g l with
    | .ok b, .ok bs => .ok (b :: bs)
    | .error e, _ => .error e
    | _, .error e => .error e

/-- Modelled from the spec: applies one field-address pattern to the
merged document, rewriting each matched string location in place via the
supplied string resolver (which receives the provenance source of the
string); non-string or unmatched locations are left untouched. -/
def applyPat (r : FilePath → String → Except LoadError String) :
    Pattern → PVal → Except LoadError PVal
  | [], v =>
    match v with
    | .pstr c o src => (r src c).map (fun t => .pstr t o src)
    | v => pure v
  | seg :: rest, v =>
    match seg, v with
    | .field f, .pobj src fields =>
      (mapME (fun kv =>
        if kv.1 = f then (applyPat r rest kv.2).map (fun w => (kv.1, w))
        else pure kv) fields).map (.pobj src)
    | .wild, .parr src es =>
      (mapME (applyPat r rest) es).map (.parr src)
    | .wild, .pobj src fields =>
      (mapME (fun kv =>
        (applyPat r rest kv.2).map (fun w => (kv.1, w))) fields).map (.pobj src)
    | _, v => pure v

/-- Modelled from the spec: the Path Resolver: a final pass over the fully
merged document applying every configured pattern in order. -/
def resolvePaths (ctx : LoadContext) :
    List (Pattern × PathResolutionMethod) → PVal → Except LoadError PVal
  | [], v => .ok v
  | pm :: metadata, v =>
    match applyPat (resolveString ctx pm.2) pm.1 v with
    | .ok u => resolvePaths ctx metadata u
    | .error e => .error e

/-- Modelled from the spec: the Loader: locate the root file (with rig
fallback), resolve the extends chain, merge base-to-derived, validate the
merged (not per-file) document against the schema, then run path
resolution over the configured patterns. -/
def loadConfigurationFileForProject (opts : ConfigurationFileOptions)
    (ctx : LoadContext) : Except LoadError PVal :=
  match locateRootFile ctx opts.projectRelativeFilePath with
  | none => .error (.notFound (joinPath ctx.projectRoot opts.projectRelativeFilePath))
  | some root =>
    match resolveChain ctx.fs root with
    | none => .error (.circularExtends [])
    | some (.error e) => .error e
    | some (.ok chain) =>
      let merged : PVal := .pobj root (mergeChain opts.propertyInheritance chain)
      if opts.schema (stripP merged) then
        resolvePaths ctx opts.jsonPathMetadata merged
      else
        .error (.schemaViolation (stripP merged))

/-- Modelled from the spec: the non-throwing variant: returns "absent"
exactly when the root configuration file cannot be located, and propagates
every other failure kind. -/
def tryLoadConfigurationFileForProject (opts : ConfigurationFileOptions)
    (ctx : LoadContext) : Except LoadError (Option PVal) :=
  match loadConfigurationFileForProject opts ctx with
  | .error (.notFound _) => .ok none
  | .error e => .error e
  | .ok v => .ok (some v)

/-- Whether a load error is the not-found condition. -/
def LoadError.isNotFound : LoadError → Bool
  | .notFound _ => true
  | _ => false

/-- Modelled from the spec: the provenance query `sourceFileOf`: the
absolute path of the file that literally declared an object or array
instance of the resolved document. -/
def getObjectSourceFilePath : PVal → Option FilePath
  | .parr src _ => some src
  | .pobj src _ => some src
  | _ => none

/-- The original (pre-path-resolution) value of one scalar, when the value
is a scalar. -/
def originalOf : PVal → Option JVal
  | .pstr _ o _ => some (.str o)
  | .pbool b => some (.bool b)
  | .pnum n => some (.num n)
  | .pnull => some .null
  | _ => none

/-- A top-level field of a resolved (or merged) document. -/
def getFieldP (v : PVal) (name : String) : Option PVal :=
  match v with
  | .pobj _ fields => lookupKey name fields
  | _ => none

/-- Modelled from the spec: the provenance query `originalValueOf`: the raw
pre-resolution value of a scalar field of an object of the resolved
document. -/
def getPropertyOriginalValue (parentObject : PVal) (propertyName : String) : Option JVal :=
  (getFieldP parentObject propertyName).bind originalOf

/-- The identity on scalar raw values, `none` on arrays and objects. -/
def rawScalar : JVal → Option JVal
  | .str s => some (.str s)
  | .bool b => some (.bool b)
  | .num n => some (.num n)
  | .null => some .null
  | _ => none

/-! ### Basic lemmas about annotation, stripping and field lookup -/

mutual
/-- Stripping an annotated document recovers the raw document. -/
theorem strip_annotate (src : FilePath) : (j : JVal) → stripP (annotate src j) = j
  | .str _ => rfl
  | .bool _ => rfl
  | .num _ => rfl
  | .null => rfl
  | .arr es => by simp [annotate, stripP, strip_annotateList src es]
  | .obj kvs => by simp [annotate, stripP, strip_annotateFields src kvs]

/-- Stripping annotated array elements recovers the raw elements. -/
theorem strip_annotateList (src : FilePath) :
    (es : List JVal) → stripList (annotateList src es) = es
  | [] => rfl
  | e :: es => by
    simp [annotateList, stripList, strip_annotate src e, strip_annotateList src es]

/-- Stripping annotated object fields recovers the raw fields. -/
theorem strip_annotateFields (src : FilePath) :
    (kvs : List (String × JVal)) → stripFields (annotateFields src kvs) = kvs
  | [] => rfl
  | (k, v) :: kvs => by
    simp [annotateFields, stripFields, strip_annotate src v, strip_annotateFields src kvs]
end

/-- Annotation commutes with field lookup. -/
theorem lookupKey_annotateFields (src : FilePath) (name : String) :
    (kvs : List (String × JVal)) →
    lookupKey name (annotateFields src kvs) = (lookupKey name kvs).map (annotate src)
  | [] => rfl
  | (k, v) :: kvs => by
    by_cases h : k = name <;>
      simp [annotateFields, lookupKey, h, lookupKey_annotateFields src name kvs]

/-- The original value recorded by annotation of a scalar is the raw scalar. -/
theorem originalOf_annotate (src : FilePath) (j : JVal) :
    originalOf (annotate src j) = rawScalar j := by
  cases j <;> simp [annotate, originalOf, rawScalar]

/-- A key none of whose entries exist looks up to `none`. -/
theorem lookupKey_eq_none {α : Type} (name : String) :
    (kvs : List (String × α)) → (∀ kv ∈ kvs, kv.1 ≠ name) → lookupKey name kvs = none
  | [], _ => rfl
  | (k, v) :: kvs, h => by
    have hk : k ≠ name := h (k, v) (by simp)
    simp [lookupKey, hk]
    exact lookupKey_eq_none name kvs (fun kv hkv => h kv (by simp [hkv]))

/-- Lookup distributes over list append, preferring the left list. -/
theorem lookupKey_append {α : Type} (name : String) :
    (l₁ l₂ : List (String × α)) →
    lookupKey name (l₁ ++ l₂) =
      match lookupKey name l₁ with
      | some v => some v
      | none => lookupKey name l₂
  | [], _ => rfl
  | (k, v) :: l₁, l₂ => by
    by_cases h : k = name <;> simp [lookupKey, h, lookupKey_append name l₁ l₂]

/-- A document whose top-level fields avoid the `extends` key keeps all its
fields in the merge. -/
theorem fieldsOfDoc_no_extends (kvs : List (String × JVal))
    (h : ∀ kv ∈ kvs, kv.1 ≠ "extends") : fieldsOfDoc (.obj kvs) = kvs := by
  simp only [fieldsOfDoc, topFields]
  exact List.filter_eq_self.mpr (fun kv hkv => by simpa using h kv hkv)

/-- Merging into an empty accumulated ancestor document yields the derived
document's fields unchanged. -/
theorem mergeFields_nil_left (pol : String → Option InheritanceType)
    (src : FilePath) (cf : List (String × PVal)) : mergeFields pol src [] cf = cf := by
  simp [mergeFields, lookupKey]

/-! ### Lookup through one merge step -/

/-- Lookup in the ancestor-side (mapped) half of a merge step. -/
theorem lookupKey_merge_mapped (pol : String → Option InheritanceType)
    (src : FilePath) (name : String) (cf : List (String × PVal)) :
    (pf : List (String × PVal)) →
    lookupKey name (pf.map (fun kv =>
      match lookupKey kv.1 cf with
      | some cv => (kv.1, mergeField src (pol kv.1) kv.2 cv)
      | none => kv)) =
      match lookupKey name pf with
      | some pv =>
        some (match lookupKey name cf with
          | some cv => mergeField src (pol name) pv cv
          | none => pv)
      | none => none
  | [] => rfl
  | (k, pv) :: pf => by
    by_cases h : k = name
    · subst h
      cases hc : lookupKey k cf <;> simp [lookupKey, hc]
    · cases hc : lookupKey k cf <;>
        simp [lookupKey, h, hc, lookupKey_merge_mapped pol src name cf pf]

/-- Lookup in the descendant-only (filtered) half of a merge step, when the
key is absent from the ancestor side. -/
theorem lookupKey_merge_filtered (name : String) (pf : List (String × PVal))
    (hpf : lookupKey name pf = none) :
    (cf : List (String × PVal)) →
    lookupKey name (cf.filter (fun kv => (lookupKey kv.1 pf).isNone)) =
      lookupKey name cf
  | [] => rfl
  | (k, cv) :: cf => by
    by_cases h : k = name
    · subst h
      simp [List.filter, lookupKey, hpf]
    · cases hk : (lookupKey k pf).isNone <;>
        simp [List.filter, lookupKey, h, hk, lookupKey_merge_filtered name pf hpf cf]

/-- Lookup through one merge step: a field present on both sides is merged
under its policy, a field present on one side is taken from that side. -/
theorem lookupKey_mergeFields (pol : String → Option InheritanceType)
    (src : FilePath) (name : String) (pf cf : List (String × PVal)) :
    lookupKey name (mergeFields pol src pf cf) =
      match lookupKey name pf, lookupKey name cf with
      | some pv, some cv => some (mergeField src (pol name) pv cv)
      | some pv, none => some pv
      | none, r => r := by
  rw [mergeFields, lookupKey_append, lookupKey_merge_mapped]
  cases hp : lookupKey name pf
  · simp [lookupKey_merge_filtered name pf hp cf]
  · cases hc : lookupKey name cf <;> simp

/-! ### Two-file and single-file load scenarios -/

/-- A derived document whose first field is the `extends` reference keeps
exactly its other fields in the merge. -/
theorem fieldsOfDoc_extends_cons (ref : String) (cf : List (String × JVal))
    (hcf : ∀ kv ∈ cf, kv.1 ≠ "extends") :
    fieldsOfDoc (.obj (("extends", .str ref) :: cf)) = cf := by
  simp only [fieldsOfDoc, topFields, List.filter_cons]
  norm_num
  exact fun a b h => hcf (a, b) h

/-- A document without an `extends` field keeps all its fields in the merge. -/
theorem fieldsOfDoc_plain (kvs : List (String × JVal))
    (h : ∀ kv ∈ kvs, kv.1 ≠ "extends") : fieldsOfDoc (.obj kvs) = kvs := by
  simp only [fieldsOfDoc, topFields]
  exact List.filter_eq_self.mpr (fun kv hkv => by simpa using h kv hkv)

/-- Chain resolution of a child file extending a parent file yields the
base-first two-element chain. -/
theorem resolveChain_two (fs : List (FilePath × RawFile))
    (parentPath childPath : FilePath) (ref : String)
    (pf cf : List (String × JVal))
    (hfs : fs = [(parentPath, .doc (.obj pf)),
                 (childPath, .doc (.obj (("extends", .str ref) :: cf)))])
    (hne : parentPath ≠ childPath)
    (href : resolveRef childPath ref = parentPath)
    (hpf : ∀ kv ∈ pf, kv.1 ≠ "extends") :
    resolveChain fs childPath =
      some (.ok [(parentPath, .obj pf),
                 (childPath, .obj (("extends", .str ref) :: cf))]) := by
  subst hfs
  have hext : getExtendsRef (.obj pf) = none := by
    simp [getExtendsRef, topFields, lookupKey_eq_none "extends" pf hpf]
  have hextc : getExtendsRef (.obj (("extends", .str ref) :: cf)) = some ref := by
    simp [getExtendsRef, topFields, lookupKey]
  simp [resolveChain, resolveChainAux, lookupFs, lookupKey, hne, Ne.symm hne, href,
    hext, hextc]

/-- Merging a two-element chain is one merge step of the two annotated
documents. -/
theorem mergeChain_two (pol : String → Option InheritanceType)
    (parentPath childPath : FilePath) (ref : String)
    (pf cf : List (String × JVal))
    (hpf : ∀ kv ∈ pf, kv.1 ≠ "extends") (hcf : ∀ kv ∈ cf, kv.1 ≠ "extends") :
    mergeChain pol [(parentPath, .obj pf),
                    (childPath, .obj (("extends", .str ref) :: cf))] =
      mergeFields pol childPath (annotateFields parentPath pf)
        (annotateFields childPath cf) := by
  simp [mergeChain, fieldsOfDoc_plain pf hpf, fieldsOfDoc_extends_cons ref cf hcf,
    mergeFields_nil_left]

/-- Loading a child file that extends a parent file merges the two
documents, validates the merged document, then path-resolves it. -/
theorem load_two (opts : ConfigurationFileOptions) (ctx : LoadContext)
    (parentPath childPath : FilePath) (ref : String)
    (pf cf : List (String × JVal))
    (hfs : ctx.fs = [(parentPath, .doc (.obj pf)),
                     (childPath, .doc (.obj (("extends", .str ref) :: cf)))])
    (hchild : joinPath ctx.projectRoot opts.projectRelativeFilePath = childPath)
    (hne : parentPath ≠ childPath)
    (href : resolveRef childPath ref = parentPath)
    (hpf : ∀ kv ∈ pf, kv.1 ≠ "extends") (hcf : ∀ kv ∈ cf, kv.1 ≠ "extends") :
    loadConfigurationFileForProject opts ctx =
      (let merged : PVal := .pobj childPath
        (mergeFields opts.propertyInheritance childPath
          (annotateFields parentPath pf) (annotateFields childPath cf));
       if opts.schema (stripP merged) then
         resolvePaths ctx opts.jsonPathMetadata merged
       else .error (.schemaViolation (stripP merged))) := by
  have hloc : locateRootFile ctx opts.projectRelativeFilePath = some childPath := by
    simp [locateRootFile, hchild, hfs, lookupFs, lookupKey, hne, Ne.symm hne]
  simp only [loadConfigurationFileForProject, hloc,
    resolveChain_two ctx.fs parentPath childPath ref pf cf hfs hne href hpf,
    mergeChain_two opts.propertyInheritance parentPath childPath ref pf cf hpf hcf]

/-- Chain resolution of a file without an `extends` field yields the
one-element chain. -/
theorem resolveChain_single (fs : List (FilePath × RawFile))
    (rootPath : FilePath) (dfields : List (String × JVal))
    (hfs : fs = [(rootPath, .doc (.obj dfields))])
    (hdf : ∀ kv ∈ dfields, kv.1 ≠ "extends") :
    resolveChain fs rootPath = some (.ok [(rootPath, .obj dfields)]) := by
  subst hfs
  have hext : getExtendsRef (.obj dfields) = none := by
    simp [getExtendsRef, topFields, lookupKey_eq_none "extends" dfields hdf]
  simp [resolveChain, resolveChainAux, lookupFs, lookupKey, hext]

/-- Loading a single file without `extends` annotates it, validates it,
then path-resolves it. -/
theorem load_single (opts : ConfigurationFileOptions) (ctx : LoadContext)
    (rootPath : FilePath) (dfields : List (String × JVal))
    (hfs : ctx.fs = [(rootPath, .doc (.obj dfields))])
    (hroot : joinPath ctx.projectRoot opts.projectRelativeFilePath = rootPath)
    (hdf : ∀ kv ∈ dfields, kv.1 ≠ "extends") :
    loadConfigurationFileForProject opts ctx =
      (let merged : PVal := .pobj rootPath (annotateFields rootPath dfields);
       if opts.schema (stripP merged) then
         resolvePaths ctx opts.jsonPathMetadata merged
       else .error (.schemaViolation (stripP merged))) := by
  have hloc : locateRootFile ctx opts.projectRelativeFilePath = some rootPath := by
    simp [locateRootFile, hroot, hfs, lookupFs, lookupKey]
  have hmc : mergeChain opts.propertyInheritance [(rootPath, .obj dfields)] =
      annotateFields rootPath dfields := by
    simp [mergeChain, fieldsOfDoc_plain dfields hdf, mergeFields_nil_left]
  simp only [loadConfigurationFileForProject, hloc,
    resolveChain_single ctx.fs rootPath dfields hfs hdf, hmc]

/-! ### Pure path resolution and provenance preservation -/

/-- The effect of `applyPat` under an error-free string resolver,
as a pure function. -/
def applyPatPure (ρ : FilePath → String → String) : Pattern → PVal → PVal
  | [], v =>
    match v with
    | .pstr c o src => .pstr (ρ src c) o src
    | v => v
  | seg :: rest, v =>
    match seg, v with
    | .field f, .pobj src fields =>
      .pobj src (fields.map (fun kv =>
        (kv.1, if kv.1 = f then applyPatPure ρ rest kv.2 else kv.2)))
    | .wild, .parr src es => .parr src (es.map (applyPatPure ρ rest))
    | .wild, .pobj src fields =>
      .pobj src (fields.map (fun kv => (kv.1, applyPatPure ρ rest kv.2)))
    | _, v => v

theorem mapME_ok_of_forall_ok {α β : Type} (g : α → Except LoadError β) (g' : α → β)
    (h : ∀ a, g a = .ok (g' a)) : ∀ l : List α, mapME g l = .ok (l.map g')
  | [] => rfl
  | a :: l => by
    simp [mapME, h a, mapME_ok_of_forall_ok g g' h l]

theorem applyPat_pure (ρ : FilePath → String → String) :
    ∀ (pat : Pattern) (v : PVal),
    applyPat (fun src s => .ok (ρ src s)) pat v = .ok (applyPatPure ρ pat v)
  | [], v => by
    cases v <;> simp [applyPat, applyPatPure, Except.map, pure, Except.pure]
  | .field f :: rest, v => by
    cases v <;> simp [applyPat, applyPatPure, pure, Except.pure]
    case pobj src fields =>
      rw [mapME_ok_of_forall_ok _
        (fun kv => (kv.1, if kv.1 = f then applyPatPure ρ rest kv.2 else kv.2))]
      · simp [Except.map]
      · intro kv
        by_cases hk : kv.1 = f <;>
          simp [hk, applyPat_pure ρ rest kv.2, Except.map, pure, Except.pure]
  | .wild :: rest, v => by
    cases v <;> simp [applyPat, applyPatPure, pure, Except.pure]
    case parr src es =>
      rw [mapME_ok_of_forall_ok _ (applyPatPure ρ rest)
        (fun e => applyPat_pure ρ rest e) es]
      simp [Except.map]
    case pobj src fields =>
      rw [mapME_ok_of_forall_ok _ (fun kv => (kv.1, applyPatPure ρ rest kv.2))]
      · simp [Except.map]
      · intro kv
        simp [applyPat_pure ρ rest kv.2, Except.map]

theorem lookupKey_map_ite (f : String) (h : PVal → PVal) (name : String) :
    (fields : List (String × PVal)) →
    lookupKey name (fields.map (fun kv =>
      (kv.1, if kv.1 = f then h kv.2 else kv.2))) =
      if name = f then (lookupKey name fields).map h else lookupKey name fields
  | [] => by by_cases hf : name = f <;> simp [lookupKey, hf]
  | (k, v) :: fields => by
    by_cases hk : k = name
    · subst hk
      by_cases hf : k = f <;> simp [lookupKey, hf]
    · by_cases hf : k = f
      · subst hf
        simp [lookupKey, hk, Ne.symm hk, lookupKey_map_ite k h name fields]
      · simp [lookupKey, hk, hf, lookupKey_map_ite f h name fields]

theorem lookupKey_map_snd (h : PVal → PVal) (name : String) :
    (fields : List (String × PVal)) →
    lookupKey name (fields.map (fun kv => (kv.1, h kv.2))) =
      (lookupKey name fields).map h
  | [] => rfl
  | (k, v) :: fields => by
    by_cases hk : k = name <;>
      simp [lookupKey, hk, lookupKey_map_snd h name fields]

theorem getFieldP_applyPatPure_field (ρ : FilePath → String → String)
    (f : String) (rest : Pattern) (src : FilePath)
    (fields : List (String × PVal)) (name : String) :
    getFieldP (applyPatPure ρ (.field f :: rest) (.pobj src fields)) name =
      if name = f then (lookupKey name fields).map (applyPatPure ρ rest)
      else lookupKey name fields := by
  simp [applyPatPure, getFieldP, lookupKey_map_ite]

theorem annotateList_strs (src : FilePath) :
    (ss : List String) →
    annotateList src (ss.map JVal.str) = ss.map (fun s => .pstr s s src)
  | [] => rfl
  | s :: ss => by simp [annotateList, annotate, annotateList_strs src ss]

theorem resolvePaths_single_meta (ctx : LoadContext) (pat : Pattern)
    (m : PathResolutionMethod) (v : PVal) :
    resolvePaths ctx [(pat, m)] v = applyPat (resolveString ctx m) pat v := by
  rw [resolvePaths]
  cases applyPat (resolveString ctx m) pat v <;> simp [resolvePaths]

theorem mapME_cons_ok {α β : Type} {g : α → Except LoadError β} {a : α} {l : List α}
    {out : List β} (h : mapME g (a :: l) = .ok out) :
    ∃ b bs, g a = .ok b ∧ mapME g l = .ok bs ∧ out = b :: bs := by
  rw [mapME] at h
  cases hga : g a with
  | error e => rw [hga] at h; simp at h
  | ok b =>
    rw [hga] at h
    cases hml : mapME g l with
    | error e => rw [hml] at h; simp at h
    | ok bs =>
      rw [hml] at h
      simp at h
      exact ⟨b, bs, rfl, rfl, h.symm⟩

theorem originalOf_applyPat (r : FilePath → String → Except LoadError String) :
    ∀ (pat : Pattern) (v w : PVal), applyPat r pat v = .ok w →
      originalOf w = originalOf v := by
  intro pat v w h
  match pat, v with
  | [], .pstr c o src =>
    rw [applyPat] at h
    cases hr : r src c <;> rw [hr] at h <;> simp [Except.map] at h
    subst h; rfl
  | [], .pbool b => simp [applyPat, pure, Except.pure] at h; subst h; rfl
  | [], .pnum n => simp [applyPat, pure, Except.pure] at h; subst h; rfl
  | [], .pnull => simp [applyPat, pure, Except.pure] at h; subst h; rfl
  | [], .parr src es => simp [applyPat, pure, Except.pure] at h; subst h; rfl
  | [], .pobj src fields => simp [applyPat, pure, Except.pure] at h; subst h; rfl
  | .field f :: rest, .pobj src fields =>
    rw [applyPat] at h
    cases hm : mapME (fun kv =>
        if kv.1 = f then (applyPat r rest kv.2).map (fun w => (kv.1, w))
        else pure kv) fields <;> rw [hm] at h <;> simp [Except.map] at h
    subst h; rfl
  | .field f :: rest, .pstr c o src => simp [applyPat, pure, Except.pure] at h; subst h; rfl
  | .field f :: rest, .pbool b => simp [applyPat, pure, Except.pure] at h; subst h; rfl
  | .field f :: rest, .pnum n => simp [applyPat, pure, Except.pure] at h; subst h; rfl
  | .field f :: rest, .pnull => simp [applyPat, pure, Except.pure] at h; subst h; rfl
  | .field f :: rest, .parr src es => simp [applyPat, pure, Except.pure] at h; subst h; rfl
  | .wild :: rest, .parr src es =>
    rw [applyPat] at h
    cases hm : mapME (applyPat r rest) es <;> rw [hm] at h <;> simp [Except.map] at h
    subst h; rfl
  | .wild :: rest, .pobj src fields =>
    rw [applyPat] at h
    cases hm : mapME (fun kv =>
        (applyPat r rest kv.2).map (fun w => (kv.1, w))) fields <;>
      rw [hm] at h <;> simp [Except.map] at h
    subst h; rfl
  | .wild :: rest, .pstr c o src => simp [applyPat, pure, Except.pure] at h; subst h; rfl
  | .wild :: rest, .pbool b => simp [applyPat, pure, Except.pure] at h; subst h; rfl
  | .wild :: rest, .pnum n => simp [applyPat, pure, Except.pure] at h; subst h; rfl
  | .wild :: rest, .pnull => simp [applyPat, pure, Except.pure] at h; subst h; rfl

theorem mapME_fields_original
    (g : (String × PVal) → Except LoadError (String × PVal))
    (hg : ∀ kv kv', g kv = .ok kv' →
      kv'.1 = kv.1 ∧ originalOf kv'.2 = originalOf kv.2) :
    ∀ (fields fields' : List (String × PVal)), mapME g fields = .ok fields' →
      ∀ name, (lookupKey name fields').bind originalOf =
        (lookupKey name fields).bind originalOf
  | [], fields', h => by
    simp [mapME] at h
    subst h; intro name; rfl
  | kv :: fields, fields', h => by
    obtain ⟨kv', rest', hga, hrest, rfl⟩ := mapME_cons_ok h
    intro name
    obtain ⟨hkey, horig⟩ := hg kv kv' hga
    obtain ⟨k, v⟩ := kv
    obtain ⟨k', v'⟩ := kv'
    simp at hkey horig
    subst hkey
    by_cases hk : k' = name
    · simp [lookupKey, hk, horig]
    · simp [lookupKey, hk,
        mapME_fields_original g hg fields rest' hrest name]

theorem getPropertyOriginalValue_applyPat (r : FilePath → String → Except LoadError String) :
    ∀ (pat : Pattern) (v w : PVal), applyPat r pat v = .ok w →
      ∀ name, getPropertyOriginalValue w name = getPropertyOriginalValue v name := by
  intro pat v w h name
  match pat, v with
  | [], .pstr c o src =>
    rw [applyPat] at h
    cases hr : r src c <;> rw [hr] at h <;> simp [Except.map] at h
    subst h; rfl
  | [], .pbool b => simp [applyPat, pure, Except.pure] at h; subst h; rfl
  | [], .pnum n => simp [applyPat, pure, Except.pure] at h; subst h; rfl
  | [], .pnull => simp [applyPat, pure, Except.pure] at h; subst h; rfl
  | [], .parr src es => simp [applyPat, pure, Except.pure] at h; subst h; rfl
  | [], .pobj src fields => simp [applyPat, pure, Except.pure] at h; subst h; rfl
  | .field f :: rest, .pobj src fields =>
    rw [applyPat] at h
    cases hm : mapME (fun kv =>
        if kv.1 = f then (applyPat r rest kv.2).map (fun w => (kv.1, w))
        else pure kv) fields <;> rw [hm] at h <;> simp [Except.map] at h
    subst h
    have hg : ∀ (kv kv' : String × PVal), (if kv.1 = f
          then (applyPat r rest kv.2).map (fun w => (kv.1, w))
          else pure kv) = Except.ok kv' →
        kv'.1 = kv.1 ∧ originalOf kv'.2 = originalOf kv.2 := by
      intro kv kv' hkv
      by_cases hkf : kv.1 = f
      · rw [if_pos hkf] at hkv
        cases ha : applyPat r rest kv.2 <;> rw [ha] at hkv <;>
          simp [Except.map] at hkv
        subst hkv
        exact ⟨rfl, originalOf_applyPat r rest kv.2 _ ha⟩
      · rw [if_neg hkf] at hkv
        simp [pure, Except.pure] at hkv
        subst hkv
        exact ⟨rfl, rfl⟩
    simpa [getPropertyOriginalValue, getFieldP] using
      mapME_fields_original _ hg fields _ hm name
  | .wild :: rest, .pobj src fields =>
    rw [applyPat] at h
    cases hm : mapME (fun kv =>
        (applyPat r rest kv.2).map (fun w => (kv.1, w))) fields <;>
      rw [hm] at h <;> simp [Except.map] at h
    subst h
    have hg : ∀ (kv kv' : String × PVal),
        ((applyPat r rest kv.2).map (fun w => (kv.1, w))) = Except.ok kv' →
        kv'.1 = kv.1 ∧ originalOf kv'.2 = originalOf kv.2 := by
      intro kv kv' hkv
      cases ha : applyPat r rest kv.2 <;> rw [ha] at hkv <;>
        simp [Except.map] at hkv
      subst hkv
      exact ⟨rfl, originalOf_applyPat r rest kv.2 _ ha⟩
    simpa [getPropertyOriginalValue, getFieldP] using
      mapME_fields_original _ hg fields _ hm name
  | .wild :: rest, .parr src es =>
    rw [applyPat] at h
    cases hm : mapME (applyPat r rest) es <;> rw [hm] at h <;> simp [Except.map] at h
    subst h; rfl
  | .field f :: rest, .pstr c o src => simp [applyPat, pure, Except.pure] at h; subst h; rfl
  | .field f :: rest, .pbool b => simp [applyPat, pure, Except.pure] at h; subst h; rfl
  | .field f :: rest, .pnum n => simp [applyPat, pure, Except.pure] at h; subst h; rfl
  | .field f :: rest, .pnull => simp [applyPat, pure, Except.pure] at h; subst h; rfl
  | .field f :: rest, .parr src es => simp [applyPat, pure, Except.pure] at h; subst h; rfl
  | .wild :: rest, .pstr c o src => simp [applyPat, pure, Except.pure] at h; subst h; rfl
  | .wild :: rest, .pbool b => simp [applyPat, pure, Except.pure] at h; subst h; rfl
  | .wild :: rest, .pnum n => simp [applyPat, pure, Except.pure] at h; subst h; rfl
  | .wild :: rest, .pnull => simp [applyPat, pure, Except.pure] at h; subst h; rfl

theorem getPropertyOriginalValue_resolvePaths (ctx : LoadContext) :
    ∀ (md : List (Pattern × PathResolutionMethod)) (v w : PVal),
      resolvePaths ctx md v = .ok w →
      ∀ name, getPropertyOriginalValue w name = getPropertyOriginalValue v name
  | [], v, w, h => by
    simp [resolvePaths] at h
    subst h; intro _; rfl
  | (pat, m) :: md, v, w, h => by
    rw [resolvePaths] at h
    intro name
    cases ha : applyPat (resolveString ctx m) pat v with
    | error e =>
      rw [ha] at h
      simp at h
    | ok u =>
      rw [ha] at h
      simp only [] at h
      have h2 : resolvePaths ctx md u = .ok w := h
      rw [getPropertyOriginalValue_resolvePaths ctx md u w h2 name]
      exact getPropertyOriginalValue_applyPat _ pat v u ha name

theorem getPropertyOriginalValue_annotate (src : FilePath) (name : String)
    (kvs : List (String × JVal)) :
    getPropertyOriginalValue (.pobj src (annotateFields src kvs)) name =
      (lookupKey name kvs).bind rawScalar := by
  rw [getPropertyOriginalValue, getFieldP, lookupKey_annotateFields]
  cases lookupKey name kvs with
  | none => rfl
  | some v => simp [originalOf_annotate]

/-! ### Cycle detection: a revisiting extends chain fails circular -/

theorem chainNth_add (fs : List (FilePath × RawFile)) :
    ∀ (a : Nat) (b : Nat) (path : FilePath),
    chainNth fs path (a + b) = (chainNth fs path a).bind (fun q => chainNth fs q b)
  | 0, b, path => by simp [chainNth]
  | a + 1, b, path => by
    have hshift : a + 1 + b = (a + b) + 1 := by omega
    rw [hshift]
    simp only [chainNth]
    cases extendsTarget fs path with
    | none => simp
    | some q => simp [chainNth_add fs a b q]

theorem chainNth_isSome_of_le (fs : List (FilePath × RawFile))
    {path : FilePath} {n : Nat} {q : FilePath}
    (h : chainNth fs path n = some q) :
    ∀ m, m ≤ n → ∃ r, chainNth fs path m = some r := by
  intro m hm
  have hsplit : n = m + (n - m) := by omega
  rw [hsplit, chainNth_add] at h
  cases hc : chainNth fs path m with
  | none => rw [hc] at h; simp at h
  | some r => exact ⟨r, rfl⟩

theorem lookupKey_mem_keys {α : Type} {name : String} {l : List (String × α)} {v : α}
    (h : lookupKey name l = some v) : name ∈ l.map Prod.fst := by
  induction l with
  | nil => simp [lookupKey] at h
  | cons kv rest ih =>
    obtain ⟨k, v'⟩ := kv
    by_cases hk : k = name
    · subst hk; simp
    · rw [lookupKey, if_neg hk] at h
      simp [ih h]

theorem extendsTarget_mem {fs : List (FilePath × RawFile)} {p t : FilePath}
    (h : extendsTarget fs p = some t) : p ∈ fs.map Prod.fst := by
  rw [extendsTarget] at h
  cases hl : lookupFs fs p with
  | none => rw [hl] at h; simp at h
  | some rf =>
    cases rf with
    | malformed => rw [hl] at h; simp at h
    | doc d => exact lookupKey_mem_keys hl

theorem chainNth_mem_keys (fs : List (FilePath × RawFile))
    {path : FilePath} {n : Nat} {p q : FilePath}
    (hn : chainNth fs path n = some p)
    (hsucc : chainNth fs path (n + 1) = some q) :
    p ∈ fs.map Prod.fst := by
  rw [chainNth_add fs n 1 path, hn] at hsucc
  simp only [Option.some_bind, chainNth] at hsucc
  cases het : extendsTarget fs p with
  | none => rw [het] at hsucc; simp at hsucc
  | some t => exact extendsTarget_mem het

theorem extendsTarget_inv {fs : List (FilePath × RawFile)} {p t : FilePath}
    (h : extendsTarget fs p = some t) :
    ∃ d e, lookupFs fs p = some (.doc d) ∧ getExtendsRef d = some e ∧
      resolveRef p e = t := by
  rw [extendsTarget] at h
  cases hl : lookupFs fs p with
  | none => rw [hl] at h; simp at h
  | some rf =>
    rw [hl] at h
    cases rf with
    | malformed => simp at h
    | doc d =>
      simp at h
      obtain ⟨e, hge, hre⟩ := h
      exact ⟨d, e, rfl, hge, hre⟩

theorem resolveChainAux_cycle (fs : List (FilePath × RawFile)) :
    ∀ (j : Nat) (path : FilePath) (visited : List FilePath) (fuel : Nat) (q : FilePath),
      j < fuel → chainNth fs path j = some q →
      (q ∈ visited ∨ ∃ i, i < j ∧ chainNth fs path i = some q) →
      ∃ cyc, resolveChainAux fs fuel visited path = some (.error (.circularExtends cyc))
  | 0, path, visited, fuel, q, hfuel, hq, hmem => by
    simp only [chainNth, Option.some.injEq] at hq
    subst hq
    obtain ⟨f_, rfl⟩ : ∃ f_, fuel = f_ + 1 := ⟨fuel - 1, by omega⟩
    rcases hmem with hv | ⟨i, hi, _⟩
    · exact ⟨visited ++ [path], by rw [resolveChainAux, if_pos hv]⟩
    · omega
  | j + 1, path, visited, fuel, q, hfuel, hq, hmem => by
    obtain ⟨f_, rfl⟩ : ∃ f_, fuel = f_ + 1 := ⟨fuel - 1, by omega⟩
    by_cases hv : path ∈ visited
    · exact ⟨visited ++ [path], by rw [resolveChainAux, if_pos hv]⟩
    · rw [chainNth] at hq
      cases het0 : extendsTarget fs path with
      | none => rw [het0] at hq; simp at hq
      | some p1 =>
        rw [het0] at hq
        simp only [Option.some_bind] at hq
        have hside : q ∈ visited ++ [path] ∨
            ∃ i, i < j ∧ chainNth fs p1 i = some q := by
          rcases hmem with hqv | ⟨i, hi, hqi⟩
          · exact Or.inl (List.mem_append_left _ hqv)
          · match i, hqi with
            | 0, hqi =>
              simp only [chainNth, Option.some.injEq] at hqi
              subst hqi
              exact Or.inl (List.mem_append_right _ (by simp))
            | i_ + 1, hqi =>
              rw [chainNth, het0] at hqi
              simp only [Option.some_bind] at hqi
              exact Or.inr ⟨i_, by omega, hqi⟩
        obtain ⟨cyc, hcyc⟩ :=
          resolveChainAux_cycle fs j p1 (visited ++ [path]) f_ q (by omega) hq hside
        obtain ⟨d, e, hl, hge, hre⟩ := extendsTarget_inv het0
        refine ⟨cyc, ?_⟩
        simp only [resolveChainAux, if_neg hv, hl, hge, hre, hcyc]

theorem resolveChain_cycle (fs : List (FilePath × RawFile)) (root : FilePath)
    (i j : Nat) (p : FilePath) (hij : i < j)
    (hi : chainNth fs root i = some p) (hj : chainNth fs root j = some p) :
    ∃ cyc, resolveChain fs root = some (.error (.circularExtends cyc)) := by
  by_cases hsmall : j ≤ fs.length
  · exact resolveChainAux_cycle fs j root [] (fs.length + 1) p (by omega) hj
      (Or.inr ⟨i, hij, hi⟩)
  · push_neg at hsmall
    have hdef : ∀ k, k ≤ j → ∃ r, chainNth fs root k = some r :=
      fun k hk => chainNth_isSome_of_le fs hj k hk
    have hmemk : ∀ k r, k < j → chainNth fs root k = some r →
        r ∈ fs.map Prod.fst := by
      intro k r hk hr
      obtain ⟨r', hr'⟩ := hdef (k + 1) (by omega)
      exact chainNth_mem_keys fs hr hr'
    set N := fs.length with hN
    have hcard : ((fs.map Prod.fst).toFinset.card : Nat) < (Finset.univ : Finset (Fin (N + 1))).card := by
      have h1 : (fs.map Prod.fst).toFinset.card ≤ (fs.map Prod.fst).length :=
        List.toFinset_card_le _
      simp only [List.length_map] at h1
      simp [Finset.card_univ]
      omega
    have hmaps : ∀ a ∈ (Finset.univ : Finset (Fin (N + 1))),
        (chainNth fs root a.val).getD "" ∈ (fs.map Prod.fst).toFinset := by
      intro a _
      obtain ⟨r, hr⟩ := hdef a.val (by omega)
      rw [hr]
      simp only [Option.getD_some]
      exact List.mem_toFinset.mpr (hmemk a.val r (by omega) hr)
    obtain ⟨x, _, y, _, hxy, hfeq⟩ :=
      Finset.exists_ne_map_eq_of_card_lt_of_maps_to hcard hmaps
    obtain ⟨rx, hrx⟩ := hdef x.val (by omega)
    obtain ⟨ry, hry⟩ := hdef y.val (by omega)
    rw [hrx, hry] at hfeq
    simp only [Option.getD_some] at hfeq
    subst hfeq
    rcases Nat.lt_or_ge x.val y.val with hlt | hge
    · exact resolveChainAux_cycle fs y.val root [] (N + 1) rx
        (by omega) hry (Or.inr ⟨x.val, hlt, hrx⟩)
    · have hylt : y.val < x.val := by
        rcases Nat.lt_or_ge y.val x.val with h | h
        · exact h
        · exact absurd (Fin.ext (by omega)) hxy
      exact resolveChainAux_cycle fs x.val root [] (N + 1) rx
        (by omega) hrx (Or.inr ⟨y.val, hylt, hry⟩)

/-! ### The claims -/

theorem stripList_append : (l₁ l₂ : List PVal) →
    stripList (l₁ ++ l₂) = stripList l₁ ++ stripList l₂
  | [], l₂ => rfl
  | e :: l₁, l₂ => by simp [stripList, stripList_append l₁ l₂]

def twoFileCtx (proj : String) (parentPath childPath : FilePath) (ref : String)
    (pf cf : List (String × JVal)) : LoadContext :=
  { projectRoot := proj,
    fs := [(parentPath, .doc (.obj pf)),
           (childPath, .doc (.obj (("extends", .str ref) :: cf)))],
    rigProfileFolder := none,
    moduleResolve := fun _ _ => none,
    realPath := id }

def plainOpts (rel : String) (md : List (Pattern × PathResolutionMethod))
    (pol : String → Option InheritanceType) : ConfigurationFileOptions :=
  { projectRelativeFilePath := rel, schema := fun _ => true,
    jsonPathMetadata := md, propertyInheritance := pol }

theorem load_two_plain (proj rel parentPath ref : String)
    (pf cf : List (String × JVal)) (pol : String → Option InheritanceType)
    (hne : parentPath ≠ joinPath proj rel)
    (href : resolveRef (joinPath proj rel) ref = parentPath)
    (hpf : ∀ kv ∈ pf, kv.1 ≠ "extends") (hcf : ∀ kv ∈ cf, kv.1 ≠ "extends") :
    loadConfigurationFileForProject (plainOpts rel [] pol)
      (twoFileCtx proj parentPath (joinPath proj rel) ref pf cf) =
      .ok (.pobj (joinPath proj rel)
        (mergeFields pol (joinPath proj rel)
          (annotateFields parentPath pf) (annotateFields (joinPath proj rel) cf))) := by
  rw [load_two (plainOpts rel [] pol)
    (twoFileCtx proj parentPath (joinPath proj rel) ref pf cf)
    parentPath (joinPath proj rel) ref pf cf rfl rfl hne href hpf hcf]
  simp [plainOpts, resolvePaths]

theorem lookupKey_merged_both (pol : String → Option InheritanceType)
    (parentSrc childSrc : FilePath) (pf cf : List (String × JVal))
    (fname : String) (pv cv : JVal)
    (hp : lookupKey fname pf = some pv) (hc : lookupKey fname cf = some cv) :
    lookupKey fname (mergeFields pol childSrc
      (annotateFields parentSrc pf) (annotateFields childSrc cf)) =
      some (mergeField childSrc (pol fname)
        (annotate parentSrc pv) (annotate childSrc cv)) := by
  rw [lookupKey_mergeFields, lookupKey_annotateFields, lookupKey_annotateFields, hp, hc]
  simp

/-- Claim C1: for every child/parent document pair joined by `extends` that
both define an array field, loading with an explicit inheritance policy for
that field produces: under `append`, the parent's elements followed by the
child's elements in that order; under `replace`, exactly the child's array;
under `custom`, exactly the value returned by the supplied function, even if
that value references neither input array. -/
theorem claim_c1_explicit_inheritance (proj rel parentPath ref : String)
    (pf cf : List (String × JVal)) (fname : String) (pes ces : List JVal)
    (f : JVal → JVal → JVal)
    (hne : parentPath ≠ joinPath proj rel)
    (href : resolveRef (joinPath proj rel) ref = parentPath)
    (hpf : ∀ kv ∈ pf, kv.1 ≠ "extends") (hcf : ∀ kv ∈ cf, kv.1 ≠ "extends")
    (hpfv : lookupKey fname pf = some (.arr pes))
    (hcfv : lookupKey fname cf = some (.arr ces)) :
    (∃ w, loadConfigurationFileForProject
        (plainOpts rel [] (fun n => if n = fname then some .append else none))
        (twoFileCtx proj parentPath (joinPath proj rel) ref pf cf) = .ok w ∧
      (getFieldP w fname).map stripP = some (.arr (pes ++ ces))) ∧
    (∃ w, loadConfigurationFileForProject
        (plainOpts rel [] (fun n => if n = fname then some .replace else none))
        (twoFileCtx proj parentPath (joinPath proj rel) ref pf cf) = .ok w ∧
      (getFieldP w fname).map stripP = some (.arr ces)) ∧
    (∃ w, loadConfigurationFileForProject
        (plainOpts rel [] (fun n => if n = fname then some (.custom f) else none))
        (twoFileCtx proj parentPath (joinPath proj rel) ref pf cf) = .ok w ∧
      (getFieldP w fname).map stripP = some (f (.arr ces) (.arr pes))) := by
  refine ⟨⟨_, load_two_plain proj rel parentPath ref pf cf _ hne href hpf hcf, ?_⟩,
          ⟨_, load_two_plain proj rel parentPath ref pf cf _ hne href hpf hcf, ?_⟩,
          ⟨_, load_two_plain proj rel parentPath ref pf cf _ hne href hpf hcf, ?_⟩⟩
  · rw [getFieldP,
      lookupKey_merged_both _ parentPath (joinPath proj rel) pf cf fname _ _ hpfv hcfv]
    simp [annotate, mergeField, stripP, stripList_append,
      strip_annotateList]
  · rw [getFieldP,
      lookupKey_merged_both _ parentPath (joinPath proj rel) pf cf fname _ _ hpfv hcfv]
    simp [annotate, mergeField, stripP, strip_annotateList]
  · rw [getFieldP,
      lookupKey_merged_both _ parentPath (joinPath proj rel) pf cf fname _ _ hpfv hcfv]
    simp [annotate, mergeField, stripP, strip_annotateList, strip_annotate]

theorem claim_c1_witness :
    (∃ w, loadConfigurationFileForProject
        (plainOpts "leaf/child.json" []
          (fun n => if n = "things" then some .append else none))
        (twoFileCtx "proj" "proj/base/parent.json"
          (joinPath "proj" "leaf/child.json") "../base/parent.json"
          [("things", .arr [.str "A", .str "B", .str "C"])]
          [("things", .arr [.str "D", .str "E"])]) = .ok w ∧
      (getFieldP w "things").map stripP =
        some (.arr [.str "A", .str "B", .str "C", .str "D", .str "E"])) ∧
    (∃ w, loadConfigurationFileForProject
        (plainOpts "leaf/child.json" []
          (fun n => if n = "things" then some .replace else none))
        (twoFileCtx "proj" "proj/base/parent.json"
          (joinPath "proj" "leaf/child.json") "../base/parent.json"
          [("things", .arr [.str "A", .str "B", .str "C"])]
          [("things", .arr [.str "D", .str "E"])]) = .ok w ∧
      (getFieldP w "things").map stripP = some (.arr [.str "D", .str "E"])) ∧
    (∃ w, loadConfigurationFileForProject
        (plainOpts "leaf/child.json" []
          (fun n => if n = "things" then
            some (.custom (fun _ _ => .arr [.str "X", .str "Y", .str "Z"])) else none))
        (twoFileCtx "proj" "proj/base/parent.json"
          (joinPath "proj" "leaf/child.json") "../base/parent.json"
          [("things", .arr [.str "A", .str "B", .str "C"])]
          [("things", .arr [.str "D", .str "E"])]) = .ok w ∧
      (getFieldP w "things").map stripP =
        some (.arr [.str "X", .str "Y", .str "Z"])) :=
  claim_c1_explicit_inheritance "proj" "leaf/child.json" "proj/base/parent.json"
    "../base/parent.json"
    [("things", .arr [.str "A", .str "B", .str "C"])]
    [("things", .arr [.str "D", .str "E"])]
    "things" [.str "A", .str "B", .str "C"] [.str "D", .str "E"]
    (fun _ _ => .arr [.str "X", .str "Y", .str "Z"])
    (by decide) rfl (by decide) (by decide) rfl rfl

/-- Claim C2: for every child/parent document pair joined by `extends`, when
no inheritance policy is configured for a field present in both documents,
an array field is merged by append (parent elements then child elements) and
a scalar field takes the child's value, with the parent's scalar value never
observable in the result (neither as the current nor as the original
value). -/
theorem claim_c2_default_merge (proj rel parentPath ref : String)
    (pf cf : List (String × JVal)) (fname sname : String)
    (pes ces : List JVal) (ps cs : String)
    (hne : parentPath ≠ joinPath proj rel)
    (href : resolveRef (joinPath proj rel) ref = parentPath)
    (hpf : ∀ kv ∈ pf, kv.1 ≠ "extends") (hcf : ∀ kv ∈ cf, kv.1 ≠ "extends")
    (hpfv : lookupKey fname pf = some (.arr pes))
    (hcfv : lookupKey fname cf = some (.arr ces))
    (hpsv : lookupKey sname pf = some (.str ps))
    (hcsv : lookupKey sname cf = some (.str cs)) :
    ∃ w, loadConfigurationFileForProject (plainOpts rel [] (fun _ => none))
        (twoFileCtx proj parentPath (joinPath proj rel) ref pf cf) = .ok w ∧
      (getFieldP w fname).map stripP = some (.arr (pes ++ ces)) ∧
      getFieldP w sname = some (.pstr cs cs (joinPath proj rel)) ∧
      getPropertyOriginalValue w sname = some (.str cs) := by
  refine ⟨_, load_two_plain proj rel parentPath ref pf cf _ hne href hpf hcf, ?_, ?_, ?_⟩
  · rw [getFieldP,
      lookupKey_merged_both _ parentPath (joinPath proj rel) pf cf fname _ _ hpfv hcfv]
    simp [annotate, mergeField, stripP, stripList_append, strip_annotateList]
  · rw [getFieldP,
      lookupKey_merged_both _ parentPath (joinPath proj rel) pf cf sname _ _ hpsv hcsv]
    simp [annotate, mergeField]
  · rw [getPropertyOriginalValue, getFieldP,
      lookupKey_merged_both _ parentPath (joinPath proj rel) pf cf sname _ _ hpsv hcsv]
    simp [annotate, mergeField, originalOf]

theorem claim_c2_witness :
    ∃ w, loadConfigurationFileForProject (plainOpts "leaf/child.json" [] (fun _ => none))
        (twoFileCtx "proj" "proj/base/parent.json"
          (joinPath "proj" "leaf/child.json") "../base/parent.json"
          [("things", .arr [.str "A", .str "B", .str "C"]), ("booleanProp", .str "yes")]
          [("things", .arr [.str "D", .str "E"]), ("booleanProp", .str "no")]) = .ok w ∧
      (getFieldP w "things").map stripP =
        some (.arr [.str "A", .str "B", .str "C", .str "D", .str "E"]) ∧
      getFieldP w "booleanProp" =
        some (.pstr "no" "no" (joinPath "proj" "leaf/child.json")) ∧
      getPropertyOriginalValue w "booleanProp" = some (.str "no") :=
  claim_c2_default_merge "proj" "leaf/child.json" "proj/base/parent.json"
    "../base/parent.json"
    [("things", .arr [.str "A", .str "B", .str "C"]), ("booleanProp", .str "yes")]
    [("things", .arr [.str "D", .str "E"]), ("booleanProp", .str "no")]
    "things" "booleanProp" [.str "A", .str "B", .str "C"] [.str "D", .str "E"]
    "yes" "no"
    (by decide) rfl (by decide) (by decide) rfl rfl rfl rfl

def fsC3 : List (FilePath × RawFile) :=
  [("p/A.json", .doc (.obj [("plugins", .arr [.obj [("plugin", .str "alpha")]])])),
   ("p/B.json", .doc (.obj [("extends", .str "A.json"),
                            ("plugins", .arr [.obj [("plugin", .str "alpha")]])])),
   ("p/C.json", .doc (.obj [("extends", .str "B.json"),
                            ("plugins", .arr [.obj [("plugin", .str "gamma")]])]))]

def ctxC3 : LoadContext :=
  { projectRoot := "p", fs := fsC3, rigProfileFolder := none,
    moduleResolve := fun _ _ => none, realPath := id }

def optsC3 : ConfigurationFileOptions :=
  { projectRelativeFilePath := "C.json", schema := fun _ => true,
    jsonPathMetadata := [], propertyInheritance := fun _ => none }

def elemC3A : PVal := .pobj "p/A.json" [("plugin", .pstr "alpha" "alpha" "p/A.json")]
def elemC3B : PVal := .pobj "p/B.json" [("plugin", .pstr "alpha" "alpha" "p/B.json")]
def elemC3C : PVal := .pobj "p/C.json" [("plugin", .pstr "gamma" "gamma" "p/C.json")]

/-- Claim C3: for every object or array instance appearing in the resolved
document of a three-level extends chain, the provenance query
`getObjectSourceFilePath` returns the path of the file whose document
literally introduced that instance into the merge (an ancestor file for
inherited objects), not the path of the finally requested leaf file, and
provenance is keyed per instance, so structurally equal objects from
different files report different source files. -/
theorem claim_c3_provenance :
    loadConfigurationFileForProject optsC3 ctxC3 =
      .ok (.pobj "p/C.json"
        [("plugins", .parr "p/C.json" [elemC3A, elemC3B, elemC3C])]) ∧
    getObjectSourceFilePath elemC3A = some "p/A.json" ∧
    getObjectSourceFilePath elemC3B = some "p/B.json" ∧
    getObjectSourceFilePath elemC3C = some "p/C.json" ∧
    stripP elemC3A = stripP elemC3B ∧
    getObjectSourceFilePath elemC3A ≠ getObjectSourceFilePath elemC3B ∧
    getObjectSourceFilePath elemC3A ≠ some "p/C.json" ∧
    getObjectSourceFilePath elemC3B ≠ some "p/C.json" := by
  refine ⟨rfl, rfl, rfl, rfl, rfl, ?_, ?_, ?_⟩ <;> decide

theorem applyPatPure_wild_parr (ρ : FilePath → String → String)
    (rest : Pattern) (src : FilePath) (es : List PVal) :
    applyPatPure ρ (.wild :: rest) (.parr src es) =
      .parr src (es.map (applyPatPure ρ rest)) := rfl

theorem applyPatPure_map_pstr (ρ : FilePath → String → String) (src : FilePath) :
    (ss : List String) →
    (ss.map (fun s => PVal.pstr s s src)).map (applyPatPure ρ []) =
      ss.map (fun s => .pstr (ρ src s) s src)
  | [] => rfl
  | s :: ss => by simp [applyPatPure, applyPatPure_map_pstr ρ src ss]

/-- Claim C4: path resolution runs only after the merge of the whole extends
chain, so that for a field-address pattern in relative-to-declaring-file
mode matching the elements of an append-merged array, every element is
resolved against the folder of the ancestor file recorded as that element's
provenance, not against the folder of the finally requested file. -/
theorem claim_c4_resolve_after_merge (proj rel parentPath ref : String)
    (pf cf : List (String × JVal)) (fname : String) (pss css : List String)
    (hne : parentPath ≠ joinPath proj rel)
    (href : resolveRef (joinPath proj rel) ref = parentPath)
    (hpf : ∀ kv ∈ pf, kv.1 ≠ "extends") (hcf : ∀ kv ∈ cf, kv.1 ≠ "extends")
    (hpfv : lookupKey fname pf = some (.arr (pss.map .str)))
    (hcfv : lookupKey fname cf = some (.arr (css.map .str))) :
    ∃ w, loadConfigurationFileForProject
        (plainOpts rel
          [([.field fname, .wild], .resolvePathRelativeToConfigurationFile)]
          (fun _ => none))
        (twoFileCtx proj parentPath (joinPath proj rel) ref pf cf) = .ok w ∧
      getFieldP w fname = some (.parr (joinPath proj rel)
        (pss.map (fun s => .pstr (joinPath (dirname parentPath) s) s parentPath) ++
         css.map (fun s => .pstr (joinPath (dirname (joinPath proj rel)) s) s
           (joinPath proj rel)))) := by
  have hload := load_two
    (plainOpts rel [([.field fname, .wild], .resolvePathRelativeToConfigurationFile)]
      (fun _ => none))
    (twoFileCtx proj parentPath (joinPath proj rel) ref pf cf)
    parentPath (joinPath proj rel) ref pf cf rfl rfl hne href hpf hcf
  simp only [plainOpts, if_true] at hload
  rw [resolvePaths_single_meta] at hload
  have hres : resolveString
      (twoFileCtx proj parentPath (joinPath proj rel) ref pf cf)
      .resolvePathRelativeToConfigurationFile =
      fun src s => Except.ok (joinPath (dirname src) s) := rfl
  rw [hres, applyPat_pure] at hload
  refine ⟨_, hload, ?_⟩
  rw [getFieldP_applyPatPure_field, if_pos rfl,
    lookupKey_merged_both _ parentPath (joinPath proj rel) pf cf fname _ _ hpfv hcfv]
  simp only [annotate, mergeField, Option.map_some']
  simp only [annotateList_strs]
  rw [applyPatPure_wild_parr, List.map_append,
    applyPatPure_map_pstr, applyPatPure_map_pstr]

theorem claim_c4_witness :
    ∃ w, loadConfigurationFileForProject
        (plainOpts "leaf/child.json"
          [([.field "things", .wild], .resolvePathRelativeToConfigurationFile)]
          (fun _ => none))
        (twoFileCtx "proj" "proj/base/parent.json"
          (joinPath "proj" "leaf/child.json") "../base/parent.json"
          [("things", .arr (["A", "B", "C"].map .str))]
          [("things", .arr (["D", "E"].map .str))]) = .ok w ∧
      getFieldP w "things" = some (.parr (joinPath "proj" "leaf/child.json")
        (["A", "B", "C"].map (fun s =>
          .pstr (joinPath (dirname "proj/base/parent.json") s) s
            "proj/base/parent.json") ++
         ["D", "E"].map (fun s =>
          .pstr (joinPath (dirname (joinPath "proj" "leaf/child.json")) s) s
            (joinPath "proj" "leaf/child.json")))) :=
  claim_c4_resolve_after_merge "proj" "leaf/child.json" "proj/base/parent.json"
    "../base/parent.json"
    [("things", .arr (["A", "B", "C"].map .str))]
    [("things", .arr (["D", "E"].map .str))]
    "things" ["A", "B", "C"] ["D", "E"]
    (by decide) rfl (by decide) (by decide) rfl rfl

/-- Claim C5: for every extends chain containing a cycle (the transitive
extends references revisit an already-visited absolute file path), load
terminates and fails with the circular-extends error condition; it never
loops forever. -/
theorem claim_c5_cycle_fails (opts : ConfigurationFileOptions) (ctx : LoadContext)
    (root p : FilePath) (i j : Nat)
    (hloc : locateRootFile ctx opts.projectRelativeFilePath = some root)
    (hij : i < j) (hi : chainNth ctx.fs root i = some p)
    (hj : chainNth ctx.fs root j = some p) :
    ∃ cyc, loadConfigurationFileForProject opts ctx =
      .error (.circularExtends cyc) := by
  obtain ⟨cyc, hc⟩ := resolveChain_cycle ctx.fs root i j p hij hi hj
  exact ⟨cyc, by simp only [loadConfigurationFileForProject, hloc, hc]⟩

def ctxC5 : LoadContext :=
  { projectRoot := "p",
    fs := [("p/config1.json", .doc (.obj [("extends", .str "config2.json")])),
           ("p/config2.json", .doc (.obj [("extends", .str "config1.json")]))],
    rigProfileFolder := none,
    moduleResolve := fun _ _ => none, realPath := id }

def optsC5 : ConfigurationFileOptions :=
  { projectRelativeFilePath := "config1.json", schema := fun _ => true,
    jsonPathMetadata := [], propertyInheritance := fun _ => none }

theorem claim_c5_witness :
    ∃ cyc, loadConfigurationFileForProject optsC5 ctxC5 =
      .error (.circularExtends cyc) :=
  claim_c5_cycle_fails optsC5 ctxC5 "p/config1.json" "p/config1.json" 0 2
    rfl (by decide) rfl rfl

/-- Claim C6: `tryLoad` returns the absent value exactly when the root
configuration file cannot be located (including when a rig fallback is
configured but the rig also lacks the file), while `load` raises the
not-found error on the same input; every other failure kind still raises
through `tryLoad`. -/
theorem claim_c6_tryLoad (opts : ConfigurationFileOptions) (ctx : LoadContext) :
    (tryLoadConfigurationFileForProject opts ctx = .ok none ↔
      ∃ p, loadConfigurationFileForProject opts ctx = .error (.notFound p)) ∧
    (∀ v, tryLoadConfigurationFileForProject opts ctx = .ok (some v) ↔
      loadConfigurationFileForProject opts ctx = .ok v) ∧
    (∀ e, e.isNotFound = false →
      (tryLoadConfigurationFileForProject opts ctx = .error e ↔
        loadConfigurationFileForProject opts ctx = .error e)) ∧
    (locateRootFile ctx opts.projectRelativeFilePath = none →
      tryLoadConfigurationFileForProject opts ctx = .ok none ∧
      loadConfigurationFileForProject opts ctx =
        .error (.notFound (joinPath ctx.projectRoot opts.projectRelativeFilePath))) ∧
    (lookupFs ctx.fs (joinPath ctx.projectRoot opts.projectRelativeFilePath) = none →
      (∀ rig, ctx.rigProfileFolder = some rig →
        lookupFs ctx.fs (joinPath rig opts.projectRelativeFilePath) = none) →
      locateRootFile ctx opts.projectRelativeFilePath = none) := by
  refine ⟨?_, ?_, ?_, ?_, ?_⟩
  · cases hload : loadConfigurationFileForProject opts ctx with
    | ok v => simp [tryLoadConfigurationFileForProject, hload]
    | error e =>
      cases e <;> simp [tryLoadConfigurationFileForProject, hload]
  · intro v
    cases hload : loadConfigurationFileForProject opts ctx with
    | ok u => simp [tryLoadConfigurationFileForProject, hload]
    | error e =>
      cases e <;> simp [tryLoadConfigurationFileForProject, hload]
  · intro e he
    cases hload : loadConfigurationFileForProject opts ctx with
    | ok u => simp [tryLoadConfigurationFileForProject, hload]
    | error e' =>
      cases e' <;>
        simp_all [tryLoadConfigurationFileForProject, hload, LoadError.isNotFound]
      intro h
      subst h
      simp [LoadError.isNotFound] at he
  · intro hloc
    have hload : loadConfigurationFileForProject opts ctx =
        .error (.notFound (joinPath ctx.projectRoot opts.projectRelativeFilePath)) := by
      rw [loadConfigurationFileForProject, hloc]
    exact ⟨by simp [tryLoadConfigurationFileForProject, hload], hload⟩
  · intro hproj hrig
    rw [locateRootFile]
    simp only [hproj, Option.isSome_none, Bool.false_eq_true, if_false]
    cases hr : ctx.rigProfileFolder with
    | none => simp
    | some rig => simp [hrig rig hr]

def ctxC6 : LoadContext :=
  { projectRoot := "proj", fs := [("rig/profile/other.json", .doc (.obj []))],
    rigProfileFolder := some "rig/profile",
    moduleResolve := fun _ _ => none, realPath := id }

def optsC6 : ConfigurationFileOptions :=
  { projectRelativeFilePath := "cfg.json", schema := fun _ => true,
    jsonPathMetadata := [], propertyInheritance := fun _ => none }

theorem claim_c6_witness :
    tryLoadConfigurationFileForProject optsC6 ctxC6 = .ok none ∧
    loadConfigurationFileForProject optsC6 ctxC6 =
      .error (.notFound (joinPath "proj" "cfg.json")) :=
  (claim_c6_tryLoad optsC6 ctxC6).2.2.2.1 rfl

/-- Claim C7: when the document obtained by merging an extends chain
violates the schema, load fails with a schema-violation error attributed to
the merged document, even when every individual ancestor file independently
satisfies the schema. -/
theorem claim_c7_schema_merged (proj rel parentPath ref : String)
    (pf cf : List (String × JVal)) (schema : JVal → Bool)
    (pol : String → Option InheritanceType)
    (hne : parentPath ≠ joinPath proj rel)
    (href : resolveRef (joinPath proj rel) ref = parentPath)
    (hpf : ∀ kv ∈ pf, kv.1 ≠ "extends") (hcf : ∀ kv ∈ cf, kv.1 ≠ "extends")
    (_hparent_ok : schema (.obj pf) = true)
    (_hchild_ok : schema (.obj cf) = true)
    (hmerged_bad : schema (stripP (.pobj (joinPath proj rel)
      (mergeFields pol (joinPath proj rel)
        (annotateFields parentPath pf)
        (annotateFields (joinPath proj rel) cf)))) = false) :
    loadConfigurationFileForProject
      { projectRelativeFilePath := rel, schema := schema,
        jsonPathMetadata := [], propertyInheritance := pol }
      (twoFileCtx proj parentPath (joinPath proj rel) ref pf cf) =
      .error (.schemaViolation (stripP (.pobj (joinPath proj rel)
        (mergeFields pol (joinPath proj rel)
          (annotateFields parentPath pf)
          (annotateFields (joinPath proj rel) cf))))) := by
  rw [load_two
    { projectRelativeFilePath := rel, schema := schema,
      jsonPathMetadata := [], propertyInheritance := pol }
    (twoFileCtx proj parentPath (joinPath proj rel) ref pf cf)
    parentPath (joinPath proj rel) ref pf cf rfl rfl hne href hpf hcf]
  simp [hmerged_bad]

def schemaC7 : JVal → Bool := fun j =>
  match lookupKey "things" (topFields j) with
  | some (.arr es) => decide (es.length ≤ 3)
  | _ => false

theorem claim_c7_witness :
    loadConfigurationFileForProject
      { projectRelativeFilePath := "leaf/child.json", schema := schemaC7,
        jsonPathMetadata := [], propertyInheritance := fun _ => none }
      (twoFileCtx "proj" "proj/base/parent.json"
        (joinPath "proj" "leaf/child.json") "../base/parent.json"
        [("things", .arr [.str "A", .str "B"])]
        [("things", .arr [.str "C", .str "D"])]) =
      .error (.schemaViolation (stripP (.pobj (joinPath "proj" "leaf/child.json")
        (mergeFields (fun _ => none) (joinPath "proj" "leaf/child.json")
          (annotateFields "proj/base/parent.json"
            [("things", .arr [.str "A", .str "B"])])
          (annotateFields (joinPath "proj" "leaf/child.json")
            [("things", .arr [.str "C", .str "D"])]))))) :=
  claim_c7_schema_merged "proj" "leaf/child.json" "proj/base/parent.json"
    "../base/parent.json"
    [("things", .arr [.str "A", .str "B"])]
    [("things", .arr [.str "C", .str "D"])]
    schemaC7 (fun _ => none)
    (by decide) rfl (by decide) (by decide) rfl rfl rfl

def singleFileCtx (proj : String) (rootPath : FilePath)
    (dfields : List (String × JVal)) : LoadContext :=
  { projectRoot := proj, fs := [(rootPath, .doc (.obj dfields))],
    rigProfileFolder := none, moduleResolve := fun _ _ => none, realPath := id }

/-- Claim C8: for a fixed document and field, loading with the field's
pattern in relative-to-configuration-file mode yields
`<folder of the file that introduced that value>/<raw string>`; changing
only the resolution mode to relative-to-project-root, with everything else
fixed, yields `<project root>/<raw string>`; and `getPropertyOriginalValue`
returns the same unresolved raw string in both cases. -/
theorem claim_c8_resolution_modes (proj rel : String)
    (dfields : List (String × JVal)) (fname s : String)
    (hdf : ∀ kv ∈ dfields, kv.1 ≠ "extends")
    (hfv : lookupKey fname dfields = some (.str s)) :
    (∃ w₁, loadConfigurationFileForProject
        (plainOpts rel [([.field fname], .resolvePathRelativeToConfigurationFile)]
          (fun _ => none))
        (singleFileCtx proj (joinPath proj rel) dfields) = .ok w₁ ∧
      getFieldP w₁ fname =
        some (.pstr (joinPath (dirname (joinPath proj rel)) s) s (joinPath proj rel)) ∧
      getPropertyOriginalValue w₁ fname = some (.str s)) ∧
    (∃ w₂, loadConfigurationFileForProject
        (plainOpts rel [([.field fname], .resolvePathRelativeToProjectRoot)]
          (fun _ => none))
        (singleFileCtx proj (joinPath proj rel) dfields) = .ok w₂ ∧
      getFieldP w₂ fname = some (.pstr (joinPath proj s) s (joinPath proj rel)) ∧
      getPropertyOriginalValue w₂ fname = some (.str s)) := by
  constructor
  · have hload := load_single
      (plainOpts rel [([.field fname], .resolvePathRelativeToConfigurationFile)]
        (fun _ => none))
      (singleFileCtx proj (joinPath proj rel) dfields)
      (joinPath proj rel) dfields rfl rfl hdf
    simp only [plainOpts, if_true] at hload
    rw [resolvePaths_single_meta] at hload
    have hres : resolveString (singleFileCtx proj (joinPath proj rel) dfields)
        .resolvePathRelativeToConfigurationFile =
        fun src t => Except.ok (joinPath (dirname src) t) := rfl
    rw [hres, applyPat_pure] at hload
    refine ⟨_, hload, ?_, ?_⟩
    · rw [getFieldP_applyPatPure_field, if_pos rfl, lookupKey_annotateFields, hfv]
      simp [annotate, applyPatPure]
    · rw [getPropertyOriginalValue, getFieldP_applyPatPure_field, if_pos rfl,
        lookupKey_annotateFields, hfv]
      simp [annotate, applyPatPure, originalOf]
  · have hload := load_single
      (plainOpts rel [([.field fname], .resolvePathRelativeToProjectRoot)]
        (fun _ => none))
      (singleFileCtx proj (joinPath proj rel) dfields)
      (joinPath proj rel) dfields rfl rfl hdf
    simp only [plainOpts, if_true] at hload
    rw [resolvePaths_single_meta] at hload
    have hres : resolveString (singleFileCtx proj (joinPath proj rel) dfields)
        .resolvePathRelativeToProjectRoot =
        fun _ t => Except.ok (joinPath proj t) := rfl
    rw [hres, applyPat_pure] at hload
    refine ⟨_, hload, ?_, ?_⟩
    · rw [getFieldP_applyPatPure_field, if_pos rfl, lookupKey_annotateFields, hfv]
      simp [annotate, applyPatPure]
    · rw [getPropertyOriginalValue, getFieldP_applyPatPure_field, if_pos rfl,
        lookupKey_annotateFields, hfv]
      simp [annotate, applyPatPure, originalOf]

theorem claim_c8_witness :
    (∃ w₁, loadConfigurationFileForProject
        (plainOpts "simplestConfigFile/config.json"
          [([.field "thing"], .resolvePathRelativeToConfigurationFile)]
          (fun _ => none))
        (singleFileCtx "proj" (joinPath "proj" "simplestConfigFile/config.json")
          [("thing", .str "A")]) = .ok w₁ ∧
      getFieldP w₁ "thing" =
        some (.pstr (joinPath (dirname (joinPath "proj" "simplestConfigFile/config.json")) "A")
          "A" (joinPath "proj" "simplestConfigFile/config.json")) ∧
      getPropertyOriginalValue w₁ "thing" = some (.str "A")) ∧
    (∃ w₂, loadConfigurationFileForProject
        (plainOpts "simplestConfigFile/config.json"
          [([.field "thing"], .resolvePathRelativeToProjectRoot)]
          (fun _ => none))
        (singleFileCtx "proj" (joinPath "proj" "simplestConfigFile/config.json")
          [("thing", .str "A")]) = .ok w₂ ∧
      getFieldP w₂ "thing" =
        some (.pstr (joinPath "proj" "A") "A"
          (joinPath "proj" "simplestConfigFile/config.json")) ∧
      getPropertyOriginalValue w₂ "thing" = some (.str "A")) :=
  claim_c8_resolution_modes "proj" "simplestConfigFile/config.json"
    [("thing", .str "A")] "thing" "A" (by decide) rfl

/-- Claim C9: for every field matched by a pattern in module-resolve mode,
the raw string is treated as a module specifier, resolved by the module
lookup rooted at the project root, and on success the field is rewritten to
the symlink-canonicalized real absolute file path, while
`getPropertyOriginalValue` still returns the original unresolved specifier;
on failure load raises the module-not-found condition naming the specifier
and the search root. -/
theorem claim_c9_module_resolve (proj rel fname s : String)
    (mr : FilePath → String → Option FilePath) (rp : FilePath → FilePath)
    (hfe : fname ≠ "extends") :
    (∀ m, mr proj s = some m →
      ∃ w, loadConfigurationFileForProject
          (plainOpts rel [([.field fname], .nodeResolve)] (fun _ => none))
          { projectRoot := proj,
            fs := [(joinPath proj rel, .doc (.obj [(fname, .str s)]))],
            rigProfileFolder := none, moduleResolve := mr, realPath := rp } = .ok w ∧
        getFieldP w fname = some (.pstr (rp m) s (joinPath proj rel)) ∧
        getPropertyOriginalValue w fname = some (.str s)) ∧
    (mr proj s = none →
      loadConfigurationFileForProject
        (plainOpts rel [([.field fname], .nodeResolve)] (fun _ => none))
        { projectRoot := proj,
          fs := [(joinPath proj rel, .doc (.obj [(fname, .str s)]))],
          rigProfileFolder := none, moduleResolve := mr, realPath := rp } =
        .error (.moduleNotFound s proj)) := by
  have hdf : ∀ kv ∈ [(fname, JVal.str s)], kv.1 ≠ "extends" := by
    intro kv hkv
    simp at hkv
    subst hkv
    exact hfe
  have hload := load_single
    (plainOpts rel [([.field fname], .nodeResolve)] (fun _ => none))
    { projectRoot := proj,
      fs := [(joinPath proj rel, .doc (.obj [(fname, .str s)]))],
      rigProfileFolder := none, moduleResolve := mr, realPath := rp }
    (joinPath proj rel) [(fname, .str s)] rfl rfl hdf
  simp only [plainOpts, if_true] at hload
  rw [resolvePaths_single_meta] at hload
  constructor
  · intro m hm
    rw [show applyPat (resolveString
        { projectRoot := proj,
          fs := [(joinPath proj rel, .doc (.obj [(fname, .str s)]))],
          rigProfileFolder := none, moduleResolve := mr, realPath := rp }
        .nodeResolve) [.field fname]
        (.pobj (joinPath proj rel)
          (annotateFields (joinPath proj rel) [(fname, .str s)])) =
      .ok (.pobj (joinPath proj rel) [(fname, .pstr (rp m) s (joinPath proj rel))])
      from by simp [applyPat, mapME, annotateFields, annotate,
        resolveString, hm, Except.map, pure, Except.pure]] at hload
    exact ⟨_, hload, by simp [getFieldP, lookupKey],
      by simp [getPropertyOriginalValue, getFieldP, lookupKey, originalOf]⟩
  · intro hm
    rw [show applyPat (resolveString
        { projectRoot := proj,
          fs := [(joinPath proj rel, .doc (.obj [(fname, .str s)]))],
          rigProfileFolder := none, moduleResolve := mr, realPath := rp }
        .nodeResolve) [.field fname]
        (.pobj (joinPath proj rel)
          (annotateFields (joinPath proj rel) [(fname, .str s)])) =
      .error (.moduleNotFound s proj)
      from by simp [applyPat, mapME, annotateFields, annotate,
        resolveString, hm, Except.map, pure, Except.pure]] at hload
    exact hload

theorem claim_c9_witness :
    (∃ w, loadConfigurationFileForProject
        (plainOpts "plugins.json" [([.field "plugin"], .nodeResolve)] (fun _ => none))
        { projectRoot := "proj",
          fs := [(joinPath "proj" "plugins.json",
            .doc (.obj [("plugin", .str "@rushstack/heft")]))],
          rigProfileFolder := none,
          moduleResolve := fun root spec =>
            if root = "proj" ∧ spec = "@rushstack/heft" then
              some "proj/node_modules/@rushstack/heft/lib/link.js"
            else none,
          realPath := fun p =>
            if p = "proj/node_modules/@rushstack/heft/lib/link.js" then
              "proj/real/heft/lib/index.js"
            else p } = .ok w ∧
      getFieldP w "plugin" =
        some (.pstr ((fun p => if p = "proj/node_modules/@rushstack/heft/lib/link.js" then
            "proj/real/heft/lib/index.js" else p)
          "proj/node_modules/@rushstack/heft/lib/link.js")
          "@rushstack/heft" (joinPath "proj" "plugins.json")) ∧
      getPropertyOriginalValue w "plugin" = some (.str "@rushstack/heft")) :=
  (claim_c9_module_resolve "proj" "plugins.json" "plugin" "@rushstack/heft"
    (fun root spec =>
      if root = "proj" ∧ spec = "@rushstack/heft" then
        some "proj/node_modules/@rushstack/heft/lib/link.js"
      else none)
    (fun p =>
      if p = "proj/node_modules/@rushstack/heft/lib/link.js" then
        "proj/real/heft/lib/index.js"
      else p)
    (by decide)).1 "proj/node_modules/@rushstack/heft/lib/link.js" (by simp)

/-- Claim C10: for every scalar field of a successfully loaded document,
`getPropertyOriginalValue` returns the field's raw value even when no
field-address pattern was configured for that field at all: provenance of
original values is recorded for every scalar field, not only for fields
that underwent path resolution. -/
theorem claim_c10_originals_without_patterns (proj rel : String)
    (dfields : List (String × JVal))
    (md : List (Pattern × PathResolutionMethod)) (schema : JVal → Bool)
    (pol : String → Option InheritanceType)
    (mr : FilePath → String → Option FilePath) (rp : FilePath → FilePath)
    (w : PVal)
    (hdf : ∀ kv ∈ dfields, kv.1 ≠ "extends")
    (hload : loadConfigurationFileForProject
      { projectRelativeFilePath := rel, schema := schema,
        jsonPathMetadata := md, propertyInheritance := pol }
      { projectRoot := proj, fs := [(joinPath proj rel, .doc (.obj dfields))],
        rigProfileFolder := none, moduleResolve := mr, realPath := rp } = .ok w) :
    ∀ name, getPropertyOriginalValue w name =
      (lookupKey name dfields).bind rawScalar := by
  intro name
  rw [load_single
    { projectRelativeFilePath := rel, schema := schema,
      jsonPathMetadata := md, propertyInheritance := pol }
    { projectRoot := proj, fs := [(joinPath proj rel, .doc (.obj dfields))],
      rigProfileFolder := none, moduleResolve := mr, realPath := rp }
    (joinPath proj rel) dfields rfl rfl hdf] at hload
  simp only [] at hload
  by_cases hs : schema (stripP (.pobj (joinPath proj rel)
      (annotateFields (joinPath proj rel) dfields))) = true
  · rw [if_pos hs] at hload
    rw [getPropertyOriginalValue_resolvePaths _ md _ w hload name]
    exact getPropertyOriginalValue_annotate (joinPath proj rel) name dfields
  · rw [if_neg hs] at hload
    simp at hload

theorem claim_c10_witness :
    getPropertyOriginalValue
      (PVal.pobj (joinPath "proj" "cfg.json")
        (annotateFields (joinPath "proj" "cfg.json")
          [("thing", .str "A"), ("count", .num 3)])) "thing" =
      (lookupKey "thing" [("thing", JVal.str "A"), ("count", JVal.num 3)]).bind
        rawScalar :=
  claim_c10_originals_without_patterns "proj" "cfg.json"
    [("thing", .str "A"), ("count", .num 3)] [] (fun _ => true) (fun _ => none)
    (fun _ _ => none) id
    (PVal.pobj (joinPath "proj" "cfg.json")
      (annotateFields (joinPath "proj" "cfg.json")
        [("thing", .str "A"), ("count", .num 3)]))
    (by decide) rfl "thing"
